import Mathlib

/-!
Verification of the rating-enforcement and leaderboard-aggregation logic of the
Task Loop application.

The development shallowly embeds:
- the `useRating` hook (`src/src/hooks/use-rating.ts`): its local state and the
  operations `checkForTasksNeedingRating` and `onSubmitRating`;
- the leaderboard aggregation of the `Leaderboard` page (`fetchLeaderboardData`):
  map-building over task rows, rating merge, profile resolution, sort, top-10 cut;
- the `getUserLevel` function and the progress-denominator selection of
  `UserStatistics.tsx`.

JavaScript `Map` iteration order is insertion order and `Map.set` on an existing
key updates in place, so the maps are embedded as association lists where an
update rewrites the existing pair and an insert appends.  `Array.prototype.sort`
is required to be stable, so it is embedded as a stable insertion sort `jsSort`
over the boolean relation "the comparator returned a non-positive number".
-/

namespace TaskLoop

/-- Task record with the `TaskType` fields read by `use-rating.ts`. -/
structure Task where
  id : String
  doerId : Option String
  isRequestorVerified : Bool
  isDoerVerified : Bool
  isDoerRated : Bool
  isRequestorRated : Bool
  deriving Repr, DecidableEq

/-- Local state of the `useRating` hook: the dialog-open flag, the enforced
flag, and the task currently selected for rating (`use-rating.ts:7-9`). -/
structure RatingState where
  isRatingDialogOpen : Bool
  isEnforcedRating : Bool
  currentTaskForRating : Option Task
  deriving Repr, DecidableEq

/-- Initial hook state: dialog closed, not enforced, no current task. -/
def initialRatingState : RatingState :=
  { isRatingDialogOpen := false, isEnforcedRating := false, currentTaskForRating := none }

/-- The doer-pass predicate of `checkForTasksNeedingRating`
(`use-rating.ts:17-22`): the current user is the doer, both verification flags
are true, and the doer-rating flag is false.  `user` is `user?.id`; JavaScript
compares it to `task.doerId` with `===`, which the `Option` equality mirrors. -/
def doerNeedsRating (user : Option String) (t : Task) : Bool :=
  t.doerId == user && t.isRequestorVerified && t.isDoerVerified && !t.isDoerRated

/-- The requestor-pass predicate (`use-rating.ts:34-38`): both verification
flags true and the requestor-rating flag false.  The source does not further
restrict this pass to tasks created by the current user. -/
def requestorNeedsRating (t : Task) : Bool :=
  t.isRequestorVerified && t.isDoerVerified && !t.isRequestorRated

/-- `checkForTasksNeedingRating` (`use-rating.ts:12-48`): find the first
qualifying applied task for the doer pass, otherwise the first qualifying
visible task for the requestor pass; on a hit set it as current, open the
dialog, mark enforced and return true; otherwise return false leaving the
state unchanged. -/
def checkForTasksNeedingRating (tasks appliedTasks : List Task) (user : Option String)
    (s : RatingState) : Bool × RatingState :=
  match appliedTasks.find? (doerNeedsRating user) with
  | some doerTask =>
    (true, { isRatingDialogOpen := true, isEnforcedRating := true,
             currentTaskForRating := some doerTask })
  | none =>
    match tasks.find? requestorNeedsRating with
    | some requestorTask =>
      (true, { isRatingDialogOpen := true, isEnforcedRating := true,
               currentTaskForRating := some requestorTask })
    | none => (false, s)

/-- Record of the one external submission call made by `onSubmitRating`,
including the hook state observable while the external call runs. -/
structure SubmitCall where
  stateAtCall : RatingState
  taskId : String
  score : Nat
  deriving Repr, DecidableEq

/-- The try/catch around the external call (`use-rating.ts:72-79`): a normal
return is propagated, a thrown exception is swallowed and becomes `false`. -/
def settle (e : Except Unit Bool) : Bool :=
  match e with
  | Except.ok b => b
  | Except.error _ => false

/-- `onSubmitRating` (`use-rating.ts:54-80`).  The external submission function
is modelled as a function that can observe the hook state at call time and
either returns a boolean (`Except.ok`) or throws (`Except.error`).  With no
current task it returns `false` without calling out; otherwise it closes the
dialog, clears the current task and the enforced flag (in source order), then
makes the external call.  In both the return and the throw case the final state
is the cleared one, so the try/catch only affects the returned boolean, which
`settle` captures.  The result carries the returned boolean, the final hook
state, and the submission call made, if any. -/
def onSubmitRating (submit : RatingState → String → Nat → Except Unit Bool)
    (s : RatingState) (score : Nat) : Bool × RatingState × Option SubmitCall :=
  match s.currentTaskForRating with
  | none => (false, s, none)
  | some task =>
    let s1 : RatingState := { s with isRatingDialogOpen := false }
    let s2 : RatingState := { s1 with currentTaskForRating := none }
    let s3 : RatingState := { s2 with isEnforcedRating := false }
    (settle (submit s3 task.id score), s3,
      some { stateAtCall := s3, taskId := task.id, score := score })

/-- Hook states reachable from the initial state by any interleaving of the two
operations, with arbitrary inputs at each step. -/
inductive Reachable : RatingState → Prop where
  | init : Reachable initialRatingState
  | check (tasks appliedTasks : List Task) (user : Option String) {s : RatingState} :
      Reachable s → Reachable (checkForTasksNeedingRating tasks appliedTasks user s).2
  | submit (f : RatingState → String → Nat → Except Unit Bool) (score : Nat) {s : RatingState} :
      Reachable s → Reachable (onSubmitRating f s score).2.1

lemma reachable_cases {s : RatingState} (h : Reachable s) :
    s = initialRatingState ∨ ∃ t, s = RatingState.mk true true (some t) := by
  induction h with
  | init => exact Or.inl rfl
  | check tasks appliedTasks user h ih =>
    unfold checkForTasksNeedingRating
    cases hd : (appliedTasks.find? (doerNeedsRating user)) with
    | some t => exact Or.inr ⟨t, rfl⟩
    | none =>
      cases hr : (tasks.find? requestorNeedsRating) with
      | some t => exact Or.inr ⟨t, rfl⟩
      | none => simpa using ih
  | submit f score h ih =>
    rename_i s'
    obtain ⟨a, b, c⟩ := s'
    cases c with
    | none => simpa [onSubmitRating] using ih
    | some t => exact Or.inl rfl

/-! ### Leaderboard aggregation (`fetchLeaderboardData` in the Leaderboard page) -/

/-- Row of the `tasks` query: role identifiers plus `status`. -/
structure TaskRow where
  creator_id : Option String
  doer_id : Option String
  status : String
  deriving Repr, DecidableEq

/-- Row of the `user_ratings` query: per-role average ratings for a user. -/
structure RatingRow where
  user_id : Option String
  creator_rating : Option Rat
  doer_rating : Option Rat
  deriving Repr, DecidableEq

/-- Accumulator value stored in the creator/doer `Map`. -/
structure Acc where
  id : String
  tasksCount : Nat
  reward : Nat
  rating : Option Rat := none
  deriving Repr, DecidableEq

/-- Profile-store record (result of the `profiles` table lookup). -/
structure Profile where
  username : Option String
  avatar_url : Option String
  deriving Repr, DecidableEq

/-- `LeaderboardUser` as displayed. -/
structure LeaderboardUser where
  id : String
  username : String
  avatar_url : Option String
  rating : Option Rat
  tasksCount : Nat
  reward : Nat
  deriving Repr, DecidableEq

/-- JavaScript truthiness of an optional id: `!x` skips both a missing value
and the empty string, so only non-empty ids take part in the aggregation. -/
def effId : Option String → Option String
  | none => none
  | some s => if s = "" then none else some s

/-- One `Map.set`-based step of the task loop (part_000:55-73 and 160-178): an
existing key is updated in place (insertion order kept), a new key is
appended; a completed task adds 1 to the count and 100 to the reward. -/
def taskStep (m : List (String × Acc)) (cid : String) (completed : Bool) :
    List (String × Acc) :=
  if m.any (fun p => p.1 == cid) then
    m.map (fun p => if p.1 == cid && completed then
      (p.1, { p.2 with tasksCount := p.2.tasksCount + 1, reward := p.2.reward + 100 })
      else p)
  else
    m ++ [(cid,
      { id := cid, tasksCount := if completed then 1 else 0,
        reward := if completed then 100 else 0 })]

/-- Loop body of the task aggregation: rows whose role id is falsy are
skipped. -/
def taskBody (role : TaskRow → Option String) (m : List (String × Acc))
    (t : TaskRow) : List (String × Acc) :=
  match effId (role t) with
  | none => m
  | some cid => taskStep m cid (t.status == "completed")

/-- Build the per-role accumulator map over all task rows.  (The doer query's
DB-side `doer_id` not-null filter is subsumed by the in-loop truthiness
skip.) -/
def buildTaskMap (role : TaskRow → Option String) (rows : List TaskRow) :
    List (String × Acc) :=
  rows.foldl (taskBody role) []

/-- One rating-merge step (part_000:86-107 and 191-212): attach the rating to
the existing accumulator, or append a fresh zero accumulator carrying just the
rating. -/
def ratingStep (m : List (String × Acc)) (uid : String) (q : Rat) :
    List (String × Acc) :=
  if m.any (fun p => p.1 == uid) then
    m.map (fun p => if p.1 == uid then (p.1, { p.2 with rating := some q }) else p)
  else
    m ++ [(uid, { id := uid, tasksCount := 0, reward := 0, rating := some q })]

/-- Loop body of the rating merge.  The query filters rows whose role rating is
null or not greater than 0, and the loop skips falsy user ids and non-numeric
ratings; only rows with a truthy user id and a positive rating act. -/
def ratingBody (get : RatingRow → Option Rat) (m : List (String × Acc))
    (r : RatingRow) : List (String × Acc) :=
  match effId r.user_id, get r with
  | some uid, some q => if 0 < q then ratingStep m uid q else m
  | some _, none => m
  | none, _ => m

/-- Merge all rating rows into the accumulator map. -/
def mergeRatings (get : RatingRow → Option Rat) (rows : List RatingRow)
    (m : List (String × Acc)) : List (String × Acc) :=
  rows.foldl (ratingBody get) m

/-- Display-identity resolution (part_000:110-127): missing profile data falls
back to the placeholder `"Unknown User"` (the `||` also treats an empty
username as missing) and a null avatar; counts, reward and rating are copied
from the accumulator. -/
def resolveEntry (profiles : String → Option Profile) (p : String × Acc) :
    LeaderboardUser :=
  { id := p.1
    username :=
      match (profiles p.1).bind Profile.username with
      | some u => if u = "" then "Unknown User" else u
      | none => "Unknown User"
    avatar_url := (profiles p.1).bind Profile.avatar_url
    rating := p.2.rating
    tasksCount := p.2.tasksCount
    reward := p.2.reward }

/-- Rating value used by the sort comparator; an absent rating counts as 0
(part_000:133-134). -/
def ratingVal (u : LeaderboardUser) : Rat :=
  u.rating.getD 0

/-- Boolean "a may stay before b" relation of the sort comparator
(part_000:131-136): the comparator value on `(a, b)` is non-positive, i.e.
descending reward, ties broken by descending rating. -/
def lbLE (a b : LeaderboardUser) : Bool :=
  if a.reward == b.reward then decide (ratingVal b ≤ ratingVal a)
  else decide (b.reward < a.reward)

/-- Stable insertion of `a` into `l`: `a` goes in front of the first element
`b` with `le a b`. -/
def jsInsert (le : α → α → Bool) (a : α) : List α → List α
  | [] => [a]
  | b :: l => if le a b then a :: b :: l else b :: jsInsert le a l

/-- Stable sort modelling `Array.prototype.sort` (which the language standard
requires to be stable) under a consistent comparator: `le a b` holds when the
comparator applied to `(a, b)` returns a non-positive value. -/
def jsSort (le : α → α → Bool) : List α → List α
  | [] => []
  | a :: l => jsInsert le a (jsSort le l)

/-- The per-role leaderboard pipeline of `fetchLeaderboardData`: accumulate
task rows, merge rating rows, resolve profiles, sort, truncate to the top
10 (`slice(0, 10)`). -/
def fetchLeaderboardRole (role : TaskRow → Option String) (get : RatingRow → Option Rat)
    (tasks : List TaskRow) (ratings : List RatingRow)
    (profiles : String → Option Profile) : List LeaderboardUser :=
  (jsSort lbLE ((mergeRatings get ratings (buildTaskMap role tasks)).map
    (resolveEntry profiles))).take 10

/-- The creators leaderboard (part_000:38-139). -/
def fetchTopCreators (tasks : List TaskRow) (ratings : List RatingRow)
    (profiles : String → Option Profile) : List LeaderboardUser :=
  fetchLeaderboardRole (fun t => t.creator_id) (fun r => r.creator_rating)
    tasks ratings profiles

/-- The doers leaderboard (part_000:142-244). -/
def fetchTopDoers (tasks : List TaskRow) (ratings : List RatingRow)
    (profiles : String → Option Profile) : List LeaderboardUser :=
  fetchLeaderboardRole (fun t => t.doer_id) (fun r => r.doer_rating)
    tasks ratings profiles

/-- Number of task rows with status `"completed"` attributed to `uid` in the
given role. -/
def completedCount (role : TaskRow → Option String) (uid : String)
    (rows : List TaskRow) : Nat :=
  (rows.filter (fun t => effId (role t) == some uid && t.status == "completed")).length

/-- The ordering the spec asks of the output: non-increasing reward, ties
broken non-increasing by rating where an absent rating counts as 0. -/
def specLE (a b : LeaderboardUser) : Prop :=
  b.reward < a.reward ∨ (b.reward = a.reward ∧ ratingVal b ≤ ratingVal a)

/-! ### User level (`UserStatistics.tsx`) -/

/-- `getUserLevel` (`UserStatistics.tsx:125-137`), level name component. -/
def getUserLevel (completedTasks : Nat) : String :=
  if completedTasks ≥ 50 then "Expert"
  else if completedTasks ≥ 20 then "Advanced"
  else if completedTasks ≥ 10 then "Intermediate"
  else if completedTasks ≥ 5 then "Beginner+"
  else "Beginner"

/-- The progress-to-next-level denominator selection
(`UserStatistics.tsx:168`): compares the level name against `"Beginner"`,
`"Regular"` and `"Pro"`, defaulting to 100. -/
def progressDenominator (level : String) : Nat :=
  if level == "Beginner" then 5
  else if level == "Regular" then 20
  else if level == "Pro" then 50
  else 100

/-! ### Stable-sort infrastructure -/

lemma mem_jsInsert {α : Type} {le : α → α → Bool} {a x : α} {l : List α} :
    x ∈ jsInsert le a l ↔ x = a ∨ x ∈ l := by
  induction l with
  | nil => simp [jsInsert]
  | cons b l ih =>
    simp only [jsInsert]
    split
    · simp [List.mem_cons]
    · simp only [List.mem_cons, ih]
      tauto

lemma jsInsert_perm {α : Type} (le : α → α → Bool) (a : α) (l : List α) :
    List.Perm (jsInsert le a l) (a :: l) := by
  induction l with
  | nil => exact List.Perm.refl _
  | cons b l ih =>
    simp only [jsInsert]
    split
    · exact List.Perm.refl _
    · exact (List.Perm.cons b ih).trans (List.Perm.swap a b l)

lemma jsSort_perm {α : Type} (le : α → α → Bool) (l : List α) :
    List.Perm (jsSort le l) l := by
  induction l with
  | nil => exact List.Perm.refl _
  | cons a l ih => exact (jsInsert_perm le a (jsSort le l)).trans (List.Perm.cons a ih)

lemma pairwise_jsInsert {α : Type} {le : α → α → Bool}
    (htr : ∀ a b c, le a b = true → le b c = true → le a c = true)
    (hto : ∀ a b, le a b = true ∨ le b a = true)
    (a : α) (l : List α) (h : l.Pairwise (fun x y => le x y = true)) :
    (jsInsert le a l).Pairwise (fun x y => le x y = true) := by
  induction l with
  | nil => simp [jsInsert]
  | cons b l ih =>
    obtain ⟨hb, hl⟩ := List.pairwise_cons.mp h
    simp only [jsInsert]
    split
    · rename_i hab
      refine List.pairwise_cons.mpr ⟨?_, h⟩
      intro x hx
      rcases List.mem_cons.mp hx with rfl | hx
      · exact hab
      · exact htr a b x hab (hb x hx)
    · rename_i hab
      have hba : le b a = true := by
        rcases hto a b with h1 | h1
        · exact absurd h1 hab
        · exact h1
      refine List.pairwise_cons.mpr ⟨?_, ih hl⟩
      intro x hx
      rcases mem_jsInsert.mp hx with rfl | hx
      · exact hba
      · exact hb x hx

lemma pairwise_jsSort {α : Type} {le : α → α → Bool}
    (htr : ∀ a b c, le a b = true → le b c = true → le a c = true)
    (hto : ∀ a b, le a b = true ∨ le b a = true)
    (l : List α) : (jsSort le l).Pairwise (fun x y => le x y = true) := by
  induction l with
  | nil => simp [jsSort]
  | cons a l ih => exact pairwise_jsInsert htr hto a _ ih

lemma map_jsInsert {α β : Type} (le : β → β → Bool) (f : α → β) (a : α) (l : List α) :
    (jsInsert (fun x y => le (f x) (f y)) a l).map f = jsInsert le (f a) (l.map f) := by
  induction l with
  | nil => rfl
  | cons b l ih =>
    simp only [jsInsert, List.map_cons]
    split
    · rename_i h
      simp [jsInsert, h]
    · rename_i h
      simp [jsInsert, h, ih]

lemma map_jsSort {α β : Type} (le : β → β → Bool) (f : α → β) (l : List α) :
    (jsSort (fun x y => le (f x) (f y)) l).map f = jsSort le (l.map f) := by
  induction l with
  | nil => rfl
  | cons a l ih =>
    simp only [jsSort, List.map_cons, map_jsInsert, ih]

/-! ### Comparator facts -/

lemma lbLE_iff (a b : LeaderboardUser) : lbLE a b = true ↔ specLE a b := by
  unfold lbLE specLE
  split_ifs with h
  · replace h : a.reward = b.reward := by simpa using h
    simp only [decide_eq_true_eq]
    constructor
    · intro hr
      exact Or.inr ⟨h.symm, hr⟩
    · rintro (hlt | ⟨heq, hr⟩)
      · omega
      · exact hr
  · replace h : ¬a.reward = b.reward := by simpa using h
    simp only [decide_eq_true_eq]
    constructor
    · intro hlt
      exact Or.inl hlt
    · rintro (hlt | ⟨heq, hr⟩)
      · exact hlt
      · omega

lemma specLE_trans (a b c : LeaderboardUser) (h1 : specLE a b) (h2 : specLE b c) :
    specLE a c := by
  unfold specLE at h1 h2 ⊢
  rcases h1 with h1 | ⟨h1e, h1r⟩ <;> rcases h2 with h2 | ⟨h2e, h2r⟩
  · exact Or.inl (by omega)
  · exact Or.inl (by omega)
  · exact Or.inl (by omega)
  · exact Or.inr ⟨by omega, le_trans h2r h1r⟩

lemma specLE_total (a b : LeaderboardUser) : specLE a b ∨ specLE b a := by
  unfold specLE
  rcases Nat.lt_trichotomy b.reward a.reward with h | h | h
  · exact Or.inl (Or.inl h)
  · rcases le_total (ratingVal b) (ratingVal a) with hr | hr
    · exact Or.inl (Or.inr ⟨h, hr⟩)
    · exact Or.inr (Or.inr ⟨h.symm, hr⟩)
  · exact Or.inr (Or.inl h)

lemma lbLE_trans (a b c : LeaderboardUser) (h1 : lbLE a b = true)
    (h2 : lbLE b c = true) : lbLE a c = true :=
  (lbLE_iff a c).mpr (specLE_trans a b c ((lbLE_iff a b).mp h1) ((lbLE_iff b c).mp h2))

lemma lbLE_total (a b : LeaderboardUser) : lbLE a b = true ∨ lbLE b a = true := by
  rcases specLE_total a b with h | h
  · exact Or.inl ((lbLE_iff a b).mpr h)
  · exact Or.inr ((lbLE_iff b a).mpr h)

/-- The sorted (but untruncated) list is ordered as the spec demands. -/
lemma pairwise_specLE_jsSort (l : List LeaderboardUser) :
    (jsSort lbLE l).Pairwise specLE :=
  (pairwise_jsSort lbLE_trans lbLE_total l).imp (fun h => (lbLE_iff _ _).mp h)

/-! ### Aggregation invariants -/

lemma any_key_iff (m : List (String × Acc)) (cid : String) :
    (m.any (fun p => p.1 == cid)) = true ↔ cid ∈ m.map Prod.fst := by
  rw [List.any_eq_true]
  constructor
  · rintro ⟨p, hp, he⟩
    exact List.mem_map.mpr ⟨p, hp, by simpa using he⟩
  · intro h
    obtain ⟨p, hp, he⟩ := List.mem_map.mp h
    exact ⟨p, hp, by simpa using he⟩

lemma completedCount_append (role : TaskRow → Option String) (uid : String)
    (l1 l2 : List TaskRow) :
    completedCount role uid (l1 ++ l2) =
      completedCount role uid l1 + completedCount role uid l2 := by
  unfold completedCount
  rw [List.filter_append, List.length_append]

lemma completedCount_singleton (role : TaskRow → Option String) (uid : String)
    (t : TaskRow) :
    completedCount role uid [t] =
      if effId (role t) = some uid ∧ t.status = "completed" then 1 else 0 := by
  unfold completedCount
  by_cases h1 : effId (role t) = some uid
  · by_cases h2 : t.status = "completed"
    · simp [h1, h2]
    · simp [h1, h2]
  · simp [h1]

lemma completedCount_eq_zero {role : TaskRow → Option String} {uid : String}
    {done : List TaskRow} (h : ∀ t' ∈ done, ¬effId (role t') = some uid) :
    completedCount role uid done = 0 := by
  unfold completedCount
  rw [List.length_eq_zero, List.filter_eq_nil]
  intro t' ht'
  simp [h t' ht']

/-- Invariant of the task-aggregation loop after processing the rows in
`done`: every accumulator holds the completed count and 100 times it as the
reward, carries no rating yet, and the keys are exactly the role ids seen. -/
def TaskInv (role : TaskRow → Option String) (done : List TaskRow)
    (m : List (String × Acc)) : Prop :=
  (∀ p ∈ m, p.2.id = p.1 ∧ p.2.rating = none ∧
      p.2.tasksCount = completedCount role p.1 done ∧
      p.2.reward = 100 * p.2.tasksCount)
  ∧ (∀ uid : String, uid ∈ m.map Prod.fst ↔ ∃ t ∈ done, effId (role t) = some uid)

lemma taskBody_none {role : TaskRow → Option String} {m : List (String × Acc)}
    {t : TaskRow} (he : effId (role t) = none) : taskBody role m t = m := by
  unfold taskBody
  rw [he]

lemma taskBody_some {role : TaskRow → Option String} {m : List (String × Acc)}
    {t : TaskRow} {cid : String} (he : effId (role t) = some cid) :
    taskBody role m t = taskStep m cid (t.status == "completed") := by
  unfold taskBody
  rw [he]

lemma taskStep_update {m : List (String × Acc)} {cid : String} {completed : Bool}
    (hin : (m.any fun p => p.1 == cid) = true) :
    taskStep m cid completed = m.map (fun p => if p.1 == cid && completed then
      (p.1, { p.2 with tasksCount := p.2.tasksCount + 1, reward := p.2.reward + 100 })
      else p) := by
  unfold taskStep
  rw [if_pos hin]

lemma taskStep_append {m : List (String × Acc)} {cid : String} {completed : Bool}
    (hin : ¬(m.any fun p => p.1 == cid) = true) :
    taskStep m cid completed = m ++ [(cid,
      { id := cid, tasksCount := if completed then 1 else 0,
        reward := if completed then 100 else 0 })] := by
  unfold taskStep
  rw [if_neg hin]

lemma taskInv_body {role : TaskRow → Option String} {done : List TaskRow}
    {m : List (String × Acc)} (t : TaskRow) (h : TaskInv role done m) :
    TaskInv role (done ++ [t]) (taskBody role m t) := by
  obtain ⟨hv, hk⟩ := h
  cases he : effId (role t) with
  | none =>
    rw [taskBody_none he]
    refine ⟨fun p hp => ?_, fun uid => ?_⟩
    · obtain ⟨h1, h2, h3, h4⟩ := hv p hp
      refine ⟨h1, h2, ?_, h4⟩
      rw [completedCount_append, completedCount_singleton, he]
      simpa using h3
    · rw [hk uid]
      constructor
      · rintro ⟨t', ht', hr⟩
        exact ⟨t', List.mem_append_left _ ht', hr⟩
      · rintro ⟨t', ht', hr⟩
        rcases List.mem_append.mp ht' with h' | h'
        · exact ⟨t', h', hr⟩
        · rw [List.mem_singleton.mp h'] at hr
          rw [he] at hr
          exact Option.noConfusion hr
  | some cid =>
    rw [taskBody_some he]
    by_cases hin : (m.any fun p => p.1 == cid) = true
    · rw [taskStep_update hin]
      have hcidk : cid ∈ m.map Prod.fst := (any_key_iff m cid).mp hin
      refine ⟨fun p hp => ?_, fun uid => ?_⟩
      · obtain ⟨q, hq, hqe⟩ := List.mem_map.mp hp
        obtain ⟨h1, h2, h3, h4⟩ := hv q hq
        by_cases hcond : (q.1 == cid && (t.status == "completed")) = true
        · rw [if_pos hcond] at hqe
          obtain ⟨hq1, hq2⟩ : q.1 = cid ∧ t.status = "completed" := by simpa using hcond
          subst hqe
          refine ⟨h1, h2, ?_, ?_⟩
          · show q.2.tasksCount + 1 = completedCount role q.1 (done ++ [t])
            rw [completedCount_append, completedCount_singleton, he, ← h3]
            simp [hq1, hq2]
          · show q.2.reward + 100 = 100 * (q.2.tasksCount + 1)
            omega
        · rw [if_neg hcond] at hqe
          subst hqe
          refine ⟨h1, h2, ?_, h4⟩
          rw [completedCount_append, completedCount_singleton, he, ← h3]
          have hne : ¬(some cid = some q.1 ∧ t.status = "completed") := by
            rintro ⟨hc, hs⟩
            apply hcond
            obtain rfl : cid = q.1 := by injection hc
            simp [hs]
          rw [if_neg hne]
          omega
      · have hmap : (m.map (fun p => if p.1 == cid && (t.status == "completed") then
            (p.1, { p.2 with tasksCount := p.2.tasksCount + 1, reward := p.2.reward + 100 })
            else p)).map Prod.fst = m.map Prod.fst := by
          rw [List.map_map]
          apply List.map_congr_left
          intro p hp
          show Prod.fst (if p.1 == cid && (t.status == "completed") then
            (p.1, { p.2 with tasksCount := p.2.tasksCount + 1, reward := p.2.reward + 100 })
            else p) = p.1
          split
          · rfl
          · rfl
        rw [hmap, hk uid]
        constructor
        · rintro ⟨t', ht', hr⟩
          exact ⟨t', List.mem_append_left _ ht', hr⟩
        · rintro ⟨t', ht', hr⟩
          rcases List.mem_append.mp ht' with h' | h'
          · exact ⟨t', h', hr⟩
          · rw [List.mem_singleton.mp h'] at hr
            rw [he] at hr
            obtain rfl : cid = uid := by injection hr
            exact (hk cid).mp hcidk
    · rw [taskStep_append hin]
      have hnotin : ¬cid ∈ m.map Prod.fst := fun hc => hin ((any_key_iff m cid).mpr hc)
      refine ⟨fun p hp => ?_, fun uid => ?_⟩
      · rcases List.mem_append.mp hp with hp' | hp'
        · obtain ⟨h1, h2, h3, h4⟩ := hv p hp'
          refine ⟨h1, h2, ?_, h4⟩
          rw [completedCount_append, completedCount_singleton, he, ← h3]
          have hne : ¬(some cid = some p.1 ∧ t.status = "completed") := by
            rintro ⟨hc, hs⟩
            apply hnotin
            obtain rfl : cid = p.1 := by injection hc
            exact List.mem_map.mpr ⟨p, hp', rfl⟩
          rw [if_neg hne]
          omega
        · have hp2 := List.mem_singleton.mp hp'
          subst hp2
          have hzero : completedCount role cid done = 0 := by
            apply completedCount_eq_zero
            intro t' ht' hco
            exact hnotin ((hk cid).mpr ⟨t', ht', hco⟩)
          refine ⟨rfl, rfl, ?_, ?_⟩
          · show (if (t.status == "completed") = true then 1 else 0) =
              completedCount role cid (done ++ [t])
            rw [completedCount_append, completedCount_singleton, he, hzero]
            by_cases hc : t.status = "completed"
            · simp [hc]
            · simp [hc]
          · show (if (t.status == "completed") = true then 100 else 0) =
              100 * (if (t.status == "completed") = true then 1 else 0)
            by_cases hc : (t.status == "completed") = true
            · simp [hc]
            · simp [hc]
      · rw [List.map_append]
        constructor
        · intro hu
          rcases List.mem_append.mp hu with hu' | hu'
          · obtain ⟨t', ht', hr⟩ := (hk uid).mp hu'
            exact ⟨t', List.mem_append_left _ ht', hr⟩
          · obtain rfl : uid = cid := by simpa using hu'
            exact ⟨t, List.mem_append_right _ (List.mem_singleton.mpr rfl), he⟩
        · rintro ⟨t', ht', hr⟩
          rcases List.mem_append.mp ht' with h' | h'
          · exact List.mem_append_left _ ((hk uid).mpr ⟨t', h', hr⟩)
          · rw [List.mem_singleton.mp h'] at hr
            rw [he] at hr
            obtain rfl : cid = uid := by injection hr
            apply List.mem_append_right
            simp

lemma taskInv_foldl (role : TaskRow → Option String) :
    ∀ (rows done : List TaskRow) (m : List (String × Acc)),
      TaskInv role done m → TaskInv role (done ++ rows) (rows.foldl (taskBody role) m)
  | [], done, m, h => by simpa using h
  | t :: rows, done, m, h => by
    have h2 := taskInv_foldl role rows (done ++ [t]) (taskBody role m t) (taskInv_body t h)
    simpa using h2

lemma taskInv_nil (role : TaskRow → Option String) : TaskInv role [] [] := by
  constructor
  · intro p hp
    cases hp
  · intro uid
    simp

lemma buildTaskMap_inv (role : TaskRow → Option String) (rows : List TaskRow) :
    TaskInv role rows (buildTaskMap role rows) := by
  have h := taskInv_foldl role rows [] [] (taskInv_nil role)
  simpa [buildTaskMap] using h

/-- Invariant preserved by the rating merge: every accumulator still carries
the completed count for the full task input, reward 100 times it, and any key
absent from the map has completed count 0. -/
def MergeInv (role : TaskRow → Option String) (rows : List TaskRow)
    (m : List (String × Acc)) : Prop :=
  (∀ p ∈ m, p.2.id = p.1 ∧ p.2.tasksCount = completedCount role p.1 rows ∧
      p.2.reward = 100 * p.2.tasksCount)
  ∧ (∀ uid : String, ¬uid ∈ m.map Prod.fst → completedCount role uid rows = 0)

lemma ratingStep_update {m : List (String × Acc)} {uid : String} {q : Rat}
    (hin : (m.any fun p => p.1 == uid) = true) :
    ratingStep m uid q =
      m.map (fun p => if p.1 == uid then (p.1, { p.2 with rating := some q }) else p) := by
  unfold ratingStep
  rw [if_pos hin]

lemma ratingStep_append {m : List (String × Acc)} {uid : String} {q : Rat}
    (hin : ¬(m.any fun p => p.1 == uid) = true) :
    ratingStep m uid q =
      m ++ [(uid, { id := uid, tasksCount := 0, reward := 0, rating := some q })] := by
  unfold ratingStep
  rw [if_neg hin]

lemma keys_map_rating (m : List (String × Acc)) (uid : String) (q : Rat) :
    (m.map (fun p => if p.1 == uid then (p.1, { p.2 with rating := some q }) else p)).map
      Prod.fst = m.map Prod.fst := by
  rw [List.map_map]
  apply List.map_congr_left
  intro p hp
  show Prod.fst (if p.1 == uid then (p.1, { p.2 with rating := some q }) else p) = p.1
  split
  · rfl
  · rfl

lemma ratingBody_none {get : RatingRow → Option Rat} {m : List (String × Acc)}
    {r : RatingRow} (h : effId r.user_id = none) : ratingBody get m r = m := by
  unfold ratingBody
  rw [h]

lemma ratingBody_skip {get : RatingRow → Option Rat} {m : List (String × Acc)}
    {r : RatingRow} {uid : String} (h : effId r.user_id = some uid)
    (h2 : get r = none) : ratingBody get m r = m := by
  unfold ratingBody
  rw [h, h2]

lemma ratingBody_some {get : RatingRow → Option Rat} {m : List (String × Acc)}
    {r : RatingRow} {uid : String} {q : Rat} (h : effId r.user_id = some uid)
    (h2 : get r = some q) :
    ratingBody get m r = if 0 < q then ratingStep m uid q else m := by
  unfold ratingBody
  rw [h, h2]

lemma mergeInv_body {role : TaskRow → Option String} {rows : List TaskRow}
    {m : List (String × Acc)} (get : RatingRow → Option Rat) (r : RatingRow)
    (h : MergeInv role rows m) : MergeInv role rows (ratingBody get m r) := by
  obtain ⟨hv, hz⟩ := h
  cases h1 : effId r.user_id with
  | none =>
    rw [ratingBody_none h1]
    exact ⟨hv, hz⟩
  | some uid =>
    cases h2 : get r with
    | none =>
      rw [ratingBody_skip h1 h2]
      exact ⟨hv, hz⟩
    | some q =>
      rw [ratingBody_some h1 h2]
      split_ifs with hq
      · by_cases hin : (m.any fun p => p.1 == uid) = true
        · rw [ratingStep_update hin]
          refine ⟨fun p hp => ?_, fun u hu => ?_⟩
          · obtain ⟨p0, hp0, hpe⟩ := List.mem_map.mp hp
            obtain ⟨g1, g2, g3⟩ := hv p0 hp0
            by_cases hc : (p0.1 == uid) = true
            · rw [if_pos hc] at hpe
              subst hpe
              exact ⟨g1, g2, g3⟩
            · rw [if_neg hc] at hpe
              subst hpe
              exact ⟨g1, g2, g3⟩
          · rw [keys_map_rating] at hu
            exact hz u hu
        · rw [ratingStep_append hin]
          have hnotin : ¬uid ∈ m.map Prod.fst :=
            fun hc => hin ((any_key_iff m uid).mpr hc)
          refine ⟨fun p hp => ?_, fun u hu => ?_⟩
          · rcases List.mem_append.mp hp with hp' | hp'
            · exact hv p hp'
            · have hpe := List.mem_singleton.mp hp'
              subst hpe
              refine ⟨rfl, ?_, rfl⟩
              show (0 : Nat) = completedCount role uid rows
              exact (hz uid hnotin).symm
          · rw [List.map_append] at hu
            apply hz
            intro hc
            exact hu (List.mem_append_left _ hc)
      · exact ⟨hv, hz⟩

lemma mergeInv_foldl {role : TaskRow → Option String} {rows : List TaskRow}
    (get : RatingRow → Option Rat) :
    ∀ (rs : List RatingRow) (m : List (String × Acc)),
      MergeInv role rows m → MergeInv role rows (rs.foldl (ratingBody get) m)
  | [], _, h => h
  | r :: rs, m, h => mergeInv_foldl get rs _ (mergeInv_body get r h)

lemma mergeRatings_inv (role : TaskRow → Option String) (get : RatingRow → Option Rat)
    (tasks : List TaskRow) (ratings : List RatingRow) :
    MergeInv role tasks (mergeRatings get ratings (buildTaskMap role tasks)) := by
  unfold mergeRatings
  apply mergeInv_foldl
  obtain ⟨hv, hk⟩ := buildTaskMap_inv role tasks
  refine ⟨fun p hp => ?_, fun uid hu => ?_⟩
  · obtain ⟨h1, h2, h3, h4⟩ := hv p hp
    exact ⟨h1, h3, h4⟩
  · apply completedCount_eq_zero
    intro t' ht' hco
    exact hu ((hk uid).mpr ⟨t', ht', hco⟩)

lemma mem_fetchLeaderboardRole {role : TaskRow → Option String}
    {get : RatingRow → Option Rat} {tasks : List TaskRow} {ratings : List RatingRow}
    {profiles : String → Option Profile} {e : LeaderboardUser}
    (he : e ∈ fetchLeaderboardRole role get tasks ratings profiles) :
    ∃ p ∈ mergeRatings get ratings (buildTaskMap role tasks),
      e = resolveEntry profiles p := by
  unfold fetchLeaderboardRole at he
  have h1 := List.mem_of_mem_take he
  have h2 := (jsSort_perm lbLE _).mem_iff.mp h1
  obtain ⟨p, hp, hpe⟩ := List.mem_map.mp h2
  exact ⟨p, hp, hpe.symm⟩

lemma roleOutput_correct (role : TaskRow → Option String) (get : RatingRow → Option Rat)
    (tasks : List TaskRow) (ratings : List RatingRow)
    (profiles : String → Option Profile) :
    (∀ e ∈ fetchLeaderboardRole role get tasks ratings profiles,
        e.reward = 100 * completedCount role e.id tasks
        ∧ e.tasksCount = completedCount role e.id tasks)
    ∧ (fetchLeaderboardRole role get tasks ratings profiles).Pairwise specLE
    ∧ (fetchLeaderboardRole role get tasks ratings profiles).length ≤ 10 := by
  refine ⟨fun e he => ?_, ?_, ?_⟩
  · obtain ⟨p, hp, rfl⟩ := mem_fetchLeaderboardRole he
    obtain ⟨g1, g2, g3⟩ := (mergeRatings_inv role get tasks ratings).1 p hp
    constructor
    · show p.2.reward = 100 * completedCount role p.1 tasks
      rw [g3, g2]
    · show p.2.tasksCount = completedCount role p.1 tasks
      exact g2
  · exact List.Pairwise.sublist (List.take_sublist _ _) (pairwise_specLE_jsSort _)
  · show ((jsSort lbLE _).take 10).length ≤ 10
    rw [List.length_take]
    exact min_le_left _ _

/-- C2: for any task, rating and profile inputs, each of the two leaderboard
outputs lists only entries whose reward is 100 times that user's completed-task
count in the relevant role, is ordered non-increasing by reward with ties
broken non-increasing by rating (an absent rating counting as 0), and has at
most 10 entries. -/
theorem leaderboard_outputs_correct (tasks : List TaskRow) (ratings : List RatingRow)
    (profiles : String → Option Profile) :
    ((∀ e ∈ fetchTopCreators tasks ratings profiles,
        e.reward = 100 * completedCount (fun t => t.creator_id) e.id tasks)
      ∧ (fetchTopCreators tasks ratings profiles).Pairwise specLE
      ∧ (fetchTopCreators tasks ratings profiles).length ≤ 10)
    ∧ ((∀ e ∈ fetchTopDoers tasks ratings profiles,
        e.reward = 100 * completedCount (fun t => t.doer_id) e.id tasks)
      ∧ (fetchTopDoers tasks ratings profiles).Pairwise specLE
      ∧ (fetchTopDoers tasks ratings profiles).length ≤ 10) := by
  obtain ⟨c1, c2, c3⟩ := roleOutput_correct (fun t => t.creator_id)
    (fun r => r.creator_rating) tasks ratings profiles
  obtain ⟨d1, d2, d3⟩ := roleOutput_correct (fun t => t.doer_id)
    (fun r => r.doer_rating) tasks ratings profiles
  exact ⟨⟨fun e he => (c1 e he).1, c2, c3⟩, ⟨fun e he => (d1 e he).1, d2, d3⟩⟩

lemma ratingBody_preserves_other {get : RatingRow → Option Rat}
    {m : List (String × Acc)} {r : RatingRow} {uid : String}
    (hne : effId r.user_id ≠ some uid) :
    (∀ acc : Acc, (uid, acc) ∈ m → (uid, acc) ∈ ratingBody get m r)
    ∧ (¬uid ∈ m.map Prod.fst → ¬uid ∈ (ratingBody get m r).map Prod.fst) := by
  cases h1 : effId r.user_id with
  | none =>
    rw [ratingBody_none h1]
    exact ⟨fun acc h => h, fun h => h⟩
  | some u2 =>
    have hu2 : uid ≠ u2 := fun he => hne (by rw [h1, he])
    cases h2 : get r with
    | none =>
      rw [ratingBody_skip h1 h2]
      exact ⟨fun acc h => h, fun h => h⟩
    | some q =>
      rw [ratingBody_some h1 h2]
      split_ifs with hq
      · by_cases hin : (m.any fun p => p.1 == u2) = true
        · rw [ratingStep_update hin]
          constructor
          · intro acc hmem
            refine List.mem_map.mpr ⟨(uid, acc), hmem, ?_⟩
            simp [hu2]
          · intro h hnew
            rw [keys_map_rating] at hnew
            exact h hnew
        · rw [ratingStep_append hin]
          constructor
          · intro acc hmem
            exact List.mem_append_left _ hmem
          · intro h hnew
            rw [List.map_append] at hnew
            rcases List.mem_append.mp hnew with h' | h'
            · exact h h'
            · have : uid = u2 := by simpa using h'
              exact hu2 this
      · exact ⟨fun acc h => h, fun h => h⟩

lemma foldl_preserves_notin (get : RatingRow → Option Rat) (uid : String) :
    ∀ (rs : List RatingRow) (m : List (String × Acc)),
      (∀ r ∈ rs, effId r.user_id ≠ some uid) →
      ¬uid ∈ m.map Prod.fst → ¬uid ∈ ((rs.foldl (ratingBody get) m).map Prod.fst)
  | [], _, _, h => h
  | r :: rs, m, hall, h =>
    foldl_preserves_notin get uid rs _
      (fun r' hr' => hall r' (List.mem_cons_of_mem _ hr'))
      ((ratingBody_preserves_other (hall r (List.mem_cons_self _ _))).2 h)

lemma foldl_preserves_mem (get : RatingRow → Option Rat) (uid : String) (acc : Acc) :
    ∀ (rs : List RatingRow) (m : List (String × Acc)),
      (∀ r ∈ rs, effId r.user_id ≠ some uid) →
      (uid, acc) ∈ m → (uid, acc) ∈ rs.foldl (ratingBody get) m
  | [], _, _, h => h
  | r :: rs, m, hall, h =>
    foldl_preserves_mem get uid acc rs _
      (fun r' hr' => hall r' (List.mem_cons_of_mem _ hr'))
      ((ratingBody_preserves_other (hall r (List.mem_cons_self _ _))).1 acc h)

/-- A user mentioned by exactly one rating row, with a positive rating, and
absent from the accumulator map, ends up in the merged map with a zero
accumulator carrying that rating. -/
lemma mergeRatings_ratingOnly (get : RatingRow → Option Rat)
    (pre post : List RatingRow) (r0 : RatingRow) (m : List (String × Acc))
    (uid : String) (q : Rat) (h0 : effId r0.user_id = some uid)
    (hq : get r0 = some q) (hqpos : 0 < q)
    (hpre : ∀ r ∈ pre, effId r.user_id ≠ some uid)
    (hpost : ∀ r ∈ post, effId r.user_id ≠ some uid)
    (hnotin : ¬uid ∈ m.map Prod.fst) :
    (uid, Acc.mk uid 0 0 (some q)) ∈ mergeRatings get (pre ++ r0 :: post) m := by
  unfold mergeRatings
  rw [List.foldl_append, List.foldl_cons]
  have h1 : ¬uid ∈ ((pre.foldl (ratingBody get) m).map Prod.fst) :=
    foldl_preserves_notin get uid pre m hpre hnotin
  have hstep : (uid, Acc.mk uid 0 0 (some q)) ∈
      ratingBody get (pre.foldl (ratingBody get) m) r0 := by
    rw [ratingBody_some h0 hq, if_pos hqpos]
    have hany : ¬((pre.foldl (ratingBody get) m).any fun p => p.1 == uid) = true :=
      fun hc => h1 ((any_key_iff _ uid).mp hc)
    rw [ratingStep_append hany]
    apply List.mem_append_right
    simp
  exact foldl_preserves_mem get uid _ post _ hpost hstep

/-- C7 (amended): a user mentioned by exactly one rating record, with a
positive role-specific average and no task rows in that role, appears in the
aggregated, sorted list before the top-10 truncation with completed count 0,
reward 0 and the rating attached, and every entry after it has reward 0 (it
ranks below every entry with positive reward).  The final `slice(0, 10)` may
still drop the entry from the displayed output. -/
theorem ratingOnly_user_before_truncation (role : TaskRow → Option String)
    (get : RatingRow → Option Rat) (tasks : List TaskRow) (pre post : List RatingRow)
    (r0 : RatingRow) (profiles : String → Option Profile) (uid : String) (q : Rat)
    (h0 : effId r0.user_id = some uid) (hq : get r0 = some q) (hqpos : 0 < q)
    (hpre : ∀ r ∈ pre, effId r.user_id ≠ some uid)
    (hpost : ∀ r ∈ post, effId r.user_id ≠ some uid)
    (htasks : ∀ t ∈ tasks, effId (role t) ≠ some uid) :
    ∃ e ∈ jsSort lbLE ((mergeRatings get (pre ++ r0 :: post)
        (buildTaskMap role tasks)).map (resolveEntry profiles)),
      e.id = uid ∧ e.tasksCount = 0 ∧ e.reward = 0 ∧ e.rating = some q ∧
      (∀ l1 l2, jsSort lbLE ((mergeRatings get (pre ++ r0 :: post)
          (buildTaskMap role tasks)).map (resolveEntry profiles)) = l1 ++ e :: l2 →
        ∀ x ∈ l2, x.reward = 0) := by
  have hnotin : ¬uid ∈ (buildTaskMap role tasks).map Prod.fst := by
    obtain ⟨hv, hk⟩ := buildTaskMap_inv role tasks
    intro hu
    obtain ⟨t', ht', hco⟩ := (hk uid).mp hu
    exact htasks t' ht' hco
  have hmem := mergeRatings_ratingOnly get pre post r0 (buildTaskMap role tasks)
    uid q h0 hq hqpos hpre hpost hnotin
  refine ⟨resolveEntry profiles (uid, Acc.mk uid 0 0 (some q)),
    (jsSort_perm lbLE _).mem_iff.mpr (List.mem_map.mpr ⟨_, hmem, rfl⟩),
    rfl, rfl, rfl, rfl, ?_⟩
  intro l1 l2 hdec x hx
  have hpw := pairwise_specLE_jsSort ((mergeRatings get (pre ++ r0 :: post)
    (buildTaskMap role tasks)).map (resolveEntry profiles))
  rw [hdec] at hpw
  have h2 := (List.pairwise_append.mp hpw).2.1
  have h3 := (List.pairwise_cons.mp h2).1 x hx
  unfold specLE at h3
  rcases h3 with h3 | ⟨h3e, h3r⟩
  · simp [resolveEntry] at h3
  · simpa [resolveEntry] using h3e

theorem ratingOnly_user_before_truncation_witness :
    effId (RatingRow.mk (some "C") none (some 3)).user_id = some "C" ∧
    (fun r : RatingRow => r.doer_rating) (RatingRow.mk (some "C") none (some 3)) =
      some 3 ∧
    (0 : Rat) < 3 ∧
    (∃ e ∈ jsSort lbLE ((mergeRatings (fun r => r.doer_rating)
        ([] ++ RatingRow.mk (some "C") none (some 3) :: [])
        (buildTaskMap (fun t => t.doer_id) [])).map (resolveEntry (fun _ => none))),
      e.id = "C" ∧ e.tasksCount = 0 ∧ e.reward = 0 ∧ e.rating = some 3 ∧
      (∀ l1 l2, jsSort lbLE ((mergeRatings (fun r => r.doer_rating)
          ([] ++ RatingRow.mk (some "C") none (some 3) :: [])
          (buildTaskMap (fun t => t.doer_id) [])).map (resolveEntry (fun _ => none)))
            = l1 ++ e :: l2 →
        ∀ x ∈ l2, x.reward = 0)) :=
  ⟨rfl, rfl, by norm_num,
    ratingOnly_user_before_truncation (fun t => t.doer_id) (fun r => r.doer_rating)
      [] [] [] (RatingRow.mk (some "C") none (some 3)) (fun _ => none) "C" 3
      rfl rfl (by norm_num) (by simp) (by simp) (by simp)⟩

/-- Input for the truncation counterexample: ten completed tasks by ten
distinct doers. -/
def tenDoerTasks : List TaskRow :=
  [TaskRow.mk none (some "u1") "completed", TaskRow.mk none (some "u2") "completed",
   TaskRow.mk none (some "u3") "completed", TaskRow.mk none (some "u4") "completed",
   TaskRow.mk none (some "u5") "completed", TaskRow.mk none (some "u6") "completed",
   TaskRow.mk none (some "u7") "completed", TaskRow.mk none (some "u8") "completed",
   TaskRow.mk none (some "u9") "completed", TaskRow.mk none (some "u10") "completed"]

/-- Input for the truncation counterexample: user `"C"` appears only in the
rating table, with a positive doer rating. -/
def ratingOnlyC : List RatingRow :=
  [RatingRow.mk (some "C") none (some 3)]

/-- C7 counterexample: with ten positive-reward doers, the user present only
in the rating table (positive doer rating 3, no tasks) satisfies the claim's
hypotheses, yet no entry for that user appears in the doer leaderboard output:
the top-10 truncation drops it. -/
theorem ratingOnly_user_dropped_counterexample :
    (ratingOnlyC.any (fun r => r.user_id == some "C"
      && (match r.doer_rating with
          | some q => decide (0 < q)
          | none => false))) = true
    ∧ (tenDoerTasks.all (fun t => t.doer_id != some "C")) = true
    ∧ ((fetchTopDoers tenDoerTasks ratingOnlyC (fun _ => none)).all
        (fun e => e.id != "C")) = true := by
  exact ⟨by decide, by decide, by decide⟩

/-- C8: profile resolution never drops an accumulated entry: resolution emits
exactly one output entry per accumulated user, keyed by the accumulator key; a
missing profile yields the placeholder name `"Unknown User"` and a null
avatar; and the sequence of user ids in the final output is independent of the
profile store, so no entry is ever dropped because of missing profile data. -/
theorem missing_profile_placeholder (role : TaskRow → Option String)
    (get : RatingRow → Option Rat) (tasks : List TaskRow) (ratings : List RatingRow)
    (profiles profiles2 : String → Option Profile) :
    (∀ p ∈ mergeRatings get ratings (buildTaskMap role tasks),
        (resolveEntry profiles p).id = p.1 ∧
        (profiles p.1 = none →
          (resolveEntry profiles p).username = "Unknown User" ∧
          (resolveEntry profiles p).avatar_url = none))
    ∧ ((mergeRatings get ratings (buildTaskMap role tasks)).map
        (resolveEntry profiles)).length =
      (mergeRatings get ratings (buildTaskMap role tasks)).length
    ∧ (fetchLeaderboardRole role get tasks ratings profiles).map (fun e => e.id) =
      (fetchLeaderboardRole role get tasks ratings profiles2).map (fun e => e.id) := by
  refine ⟨fun p hp => ⟨rfl, fun hnone => ?_⟩, List.length_map _ _, ?_⟩
  · constructor
    · simp [resolveEntry, hnone]
    · simp [resolveEntry, hnone]
  · unfold fetchLeaderboardRole
    rw [List.map_take, List.map_take]
    congr 1
    rw [← map_jsSort lbLE (resolveEntry profiles),
      ← map_jsSort lbLE (resolveEntry profiles2), List.map_map, List.map_map]
    rfl

lemma getUserLevel_cases (n : Nat) :
    getUserLevel n = "Beginner" ∨ getUserLevel n = "Beginner+" ∨
      getUserLevel n = "Intermediate" ∨ getUserLevel n = "Advanced" ∨
      getUserLevel n = "Expert" := by
  unfold getUserLevel
  split_ifs
  · right; right; right; right; rfl
  · right; right; right; left; rfl
  · right; right; left; rfl
  · right; left; rfl
  · left; rfl

/-- C9: `getUserLevel` returns one of exactly the five names `"Beginner"`,
`"Beginner+"`, `"Intermediate"`, `"Advanced"`, `"Expert"`, never `"Regular"`
or `"Pro"`; consequently the progress denominator, which compares against
`"Beginner"`, `"Regular"` and `"Pro"`, evaluates to the default 100 for every
produced level other than `"Beginner"`. -/
theorem getUserLevel_names (n : Nat) :
    (getUserLevel n = "Beginner" ∨ getUserLevel n = "Beginner+" ∨
      getUserLevel n = "Intermediate" ∨ getUserLevel n = "Advanced" ∨
      getUserLevel n = "Expert")
    ∧ getUserLevel n ≠ "Regular" ∧ getUserLevel n ≠ "Pro"
    ∧ (getUserLevel n ≠ "Beginner" → progressDenominator (getUserLevel n) = 100) := by
  rcases getUserLevel_cases n with h | h | h | h | h <;> rw [h] <;> decide

/-- C1: `checkForTasksNeedingRating` returns true iff some applied task
satisfies the doer-owes-rating predicate or some visible task satisfies the
requestor-owes-rating predicate; when it returns true, the selected current
task is the first doer-pass match in insertion order, the whole doer pass
taking precedence over the requestor pass. -/
theorem checkForTasksNeedingRating_correct (tasks appliedTasks : List Task)
    (user : Option String) (s : RatingState) :
    ((checkForTasksNeedingRating tasks appliedTasks user s).1 = true ↔
      (∃ t ∈ appliedTasks, doerNeedsRating user t = true) ∨
        (∃ t ∈ tasks, requestorNeedsRating t = true))
    ∧ ((checkForTasksNeedingRating tasks appliedTasks user s).1 = true →
        (checkForTasksNeedingRating tasks appliedTasks user s).2.currentTaskForRating =
          (appliedTasks.find? (doerNeedsRating user)).or (tasks.find? requestorNeedsRating)) := by
  unfold checkForTasksNeedingRating
  cases hd : appliedTasks.find? (doerNeedsRating user) with
  | some t =>
    refine ⟨⟨fun _ => Or.inl ⟨t, List.mem_of_find?_eq_some hd, List.find?_some hd⟩,
      fun _ => rfl⟩, fun _ => ?_⟩
    simp [Option.or]
  | none =>
    cases hr : tasks.find? requestorNeedsRating with
    | some t =>
      refine ⟨⟨fun _ => Or.inr ⟨t, List.mem_of_find?_eq_some hr, List.find?_some hr⟩,
        fun _ => rfl⟩, fun _ => ?_⟩
      simp [Option.or]
    | none =>
      refine ⟨⟨fun h => absurd h (by simp), fun h => ?_⟩, fun h => absurd h (by simp)⟩
      rcases h with ⟨t, ht, hp⟩ | ⟨t, ht, hp⟩
      · exact absurd hp (by simpa using List.find?_eq_none.mp hd t ht)
      · exact absurd hp (by simpa using List.find?_eq_none.mp hr t ht)

theorem checkForTasksNeedingRating_correct_witness :
    ((checkForTasksNeedingRating [] [Task.mk "t1" (some "u") true true false false]
        (some "u") initialRatingState).1 = true ↔
      (∃ t ∈ [Task.mk "t1" (some "u") true true false false],
          doerNeedsRating (some "u") t = true) ∨
        (∃ t ∈ ([] : List Task), requestorNeedsRating t = true))
    ∧ ((checkForTasksNeedingRating [] [Task.mk "t1" (some "u") true true false false]
        (some "u") initialRatingState).1 = true →
        (checkForTasksNeedingRating [] [Task.mk "t1" (some "u") true true false false]
          (some "u") initialRatingState).2.currentTaskForRating =
          (([Task.mk "t1" (some "u") true true false false].find?
              (doerNeedsRating (some "u"))).or
            (([] : List Task).find? requestorNeedsRating))) :=
  checkForTasksNeedingRating_correct [] [Task.mk "t1" (some "u") true true false false]
    (some "u") initialRatingState

/-- C3: when a current task is set, `onSubmitRating` records exactly one
external submission call, and the hook state observable during that call is
already fully cleared: dialog closed, no current task, enforced flag off. -/
theorem onSubmitRating_clears_before_submit
    (submit : RatingState → String → Nat → Except Unit Bool)
    (s : RatingState) (score : Nat) (t : Task) (h : s.currentTaskForRating = some t) :
    ∃ c, (onSubmitRating submit s score).2.2 = some c ∧
      c.stateAtCall.isRatingDialogOpen = false ∧
      c.stateAtCall.currentTaskForRating = none ∧
      c.stateAtCall.isEnforcedRating = false ∧ c.taskId = t.id ∧ c.score = score := by
  obtain ⟨a, b, cur⟩ := s
  cases cur with
  | none => simp at h
  | some t0 =>
    obtain rfl : t0 = t := by simpa using h
    exact ⟨_, rfl, rfl, rfl, rfl, rfl, rfl⟩

theorem onSubmitRating_clears_before_submit_witness :
    (RatingState.mk true true
        (some (Task.mk "t1" (some "u") true true false false))).currentTaskForRating =
      some (Task.mk "t1" (some "u") true true false false) ∧
      (∃ c, (onSubmitRating (fun _ _ _ => Except.ok true)
          (RatingState.mk true true
            (some (Task.mk "t1" (some "u") true true false false))) 5).2.2 = some c ∧
        c.stateAtCall.isRatingDialogOpen = false ∧
        c.stateAtCall.currentTaskForRating = none ∧
        c.stateAtCall.isEnforcedRating = false ∧
        c.taskId = (Task.mk "t1" (some "u") true true false false).id ∧ c.score = 5) :=
  ⟨rfl, onSubmitRating_clears_before_submit (fun _ _ _ => Except.ok true)
    (RatingState.mk true true (some (Task.mk "t1" (some "u") true true false false))) 5
    (Task.mk "t1" (some "u") true true false false) rfl⟩

/-- C4: with no current task, `onSubmitRating` returns failure, leaves the
state unchanged, and makes no external submission call. -/
theorem onSubmitRating_no_task (submit : RatingState → String → Nat → Except Unit Bool)
    (s : RatingState) (score : Nat) (h : s.currentTaskForRating = none) :
    onSubmitRating submit s score = (false, s, none) := by
  unfold onSubmitRating
  rw [h]

theorem onSubmitRating_no_task_witness :
    initialRatingState.currentTaskForRating = none ∧
      onSubmitRating (fun _ _ _ => Except.ok true) initialRatingState 3 =
        (false, initialRatingState, none) :=
  ⟨rfl, onSubmitRating_no_task (fun _ _ _ => Except.ok true) initialRatingState 3 rfl⟩

/-- C5: with a current task set, `onSubmitRating` returns exactly the external
call's boolean when that call returns normally, and returns `false` (without
propagating) when it throws; the call receives the cleared state and the
current task's identifier. -/
theorem onSubmitRating_propagates (submit : RatingState → String → Nat → Except Unit Bool)
    (s : RatingState) (score : Nat) (t : Task) (h : s.currentTaskForRating = some t) :
    (∀ b : Bool, submit (RatingState.mk false false none) t.id score = Except.ok b →
        (onSubmitRating submit s score).1 = b)
    ∧ (∀ e : Unit, submit (RatingState.mk false false none) t.id score = Except.error e →
        (onSubmitRating submit s score).1 = false) := by
  obtain ⟨a, b, cur⟩ := s
  cases cur with
  | none => simp at h
  | some t0 =>
    obtain rfl : t0 = t := by simpa using h
    constructor
    · intro b0 hb
      simp [onSubmitRating, settle, hb]
    · intro e he
      simp [onSubmitRating, settle, he]

theorem onSubmitRating_propagates_witness :
    (RatingState.mk true true
        (some (Task.mk "t1" (some "u") true true false false))).currentTaskForRating =
      some (Task.mk "t1" (some "u") true true false false) ∧
      ((∀ b : Bool, (Except.error () : Except Unit Bool) = Except.ok b →
          (onSubmitRating (fun _ _ _ => (Except.error () : Except Unit Bool))
            (RatingState.mk true true
              (some (Task.mk "t1" (some "u") true true false false))) 4).1 = b)
        ∧ (∀ e : Unit, (Except.error () : Except Unit Bool) = Except.error e →
            (onSubmitRating (fun _ _ _ => (Except.error () : Except Unit Bool))
              (RatingState.mk true true
                (some (Task.mk "t1" (some "u") true true false false))) 4).1 = false)) :=
  ⟨rfl, onSubmitRating_propagates (fun _ _ _ => (Except.error () : Except Unit Bool))
    (RatingState.mk true true (some (Task.mk "t1" (some "u") true true false false))) 4
    (Task.mk "t1" (some "u") true true false false) rfl⟩

/-- C6: calling `checkForTasksNeedingRating` twice with unchanged input yields
the same boolean, and the second call leaves the state exactly where the first
call put it (same selected task, no state change). -/
theorem checkForTasksNeedingRating_idempotent (tasks appliedTasks : List Task)
    (user : Option String) (s : RatingState) :
    (checkForTasksNeedingRating tasks appliedTasks user
        (checkForTasksNeedingRating tasks appliedTasks user s).2).1 =
      (checkForTasksNeedingRating tasks appliedTasks user s).1
    ∧ (checkForTasksNeedingRating tasks appliedTasks user
        (checkForTasksNeedingRating tasks appliedTasks user s).2).2 =
      (checkForTasksNeedingRating tasks appliedTasks user s).2 := by
  unfold checkForTasksNeedingRating
  cases hd : appliedTasks.find? (doerNeedsRating user) with
  | some t => exact ⟨rfl, rfl⟩
  | none =>
    cases hr : tasks.find? requestorNeedsRating with
    | some t => exact ⟨rfl, rfl⟩
    | none => exact ⟨rfl, rfl⟩

/-- C10: every hook state reachable from the initial state through the two
operations keeps the dialog-open flag, the enforced flag and the presence of a
current task synchronized. -/
theorem ratingState_synchronized (s : RatingState) (h : Reachable s) :
    (s.isRatingDialogOpen = true ↔ s.isEnforcedRating = true)
    ∧ (s.isRatingDialogOpen = true ↔ s.currentTaskForRating ≠ none) := by
  rcases reachable_cases h with rfl | ⟨t, rfl⟩
  · simp [initialRatingState]
  · simp

theorem ratingState_synchronized_witness :
    (initialRatingState.isRatingDialogOpen = true ↔
        initialRatingState.isEnforcedRating = true)
    ∧ (initialRatingState.isRatingDialogOpen = true ↔
        initialRatingState.currentTaskForRating ≠ none) :=
  ratingState_synchronized initialRatingState Reachable.init

end TaskLoop
